import Mathlib

/-!
Verification of the directive-extraction and pipeline-processing engine of `nbquarto`
(`src/nbquarto/process.py`, `src/nbquarto/processor.py`, `src/nbquarto/utils.py`).

Strings are modelled as `List Char` (`Str`).  Python regular expressions appearing in the
code (`cell_magic = ^\s*%%\w+`, `format_directive = \s*MARKER\s*\|`, and
`quarto_regex = \s*MARKER\s*\|\s*[\w|-]+\s*:`) are modelled by deterministic maximal-munch
scanners; this is exact because every adjacent pair of sub-patterns has disjoint character
classes, so the regex engine never needs to backtrack.  `\w` is modelled on its ASCII part
(letters, digits, underscore); `\s` and `str.strip` use the full Unicode whitespace set
that Python uses for both.  The comment marker is interpolated into the patterns
unescaped and is modelled as a literal string, which is faithful exactly for markers
without regex metacharacters (see `isRegexMetaChar`): stata's `"*"` marker makes
`re.compile` itself raise, and the list-valued markers interpolate as a character class;
neither case is represented by the scanners.
-/

/-- Strings as lists of characters. -/
abbrev Str := List Char

/-- Code point of a character, as a natural number. -/
def cw (c : Char) : Nat := c.toNat

/-- Python whitespace (`\s` in a `str` regex, and the default `str.strip`/`lstrip` set):
TAB..CR (9-13), space, FS..US (28-31), NEL (0x85), NBSP (0xa0), and the Unicode space
characters. -/
def isPyWs (c : Char) : Bool :=
  (9 ≤ cw c && cw c ≤ 13) || cw c == 32 || (28 ≤ cw c && cw c ≤ 31) || cw c == 0x85 ||
  cw c == 0xa0 || cw c == 0x1680 || (0x2000 ≤ cw c && cw c ≤ 0x200a) || cw c == 0x2028 ||
  cw c == 0x2029 || cw c == 0x202f || cw c == 0x205f || cw c == 0x3000

/-- Python `\w`, restricted to its ASCII part: digits, letters, underscore. -/
def isPyWordChar (c : Char) : Bool :=
  (48 ≤ cw c && cw c ≤ 57) || (65 ≤ cw c && cw c ≤ 90) || (97 ≤ cw c && cw c ≤ 122) ||
  cw c == 95

/-- The character class `[\w|-]` of `quarto_regex` in `process.py`: word characters,
pipe (124) and hyphen (45). -/
def isDirNameChar (c : Char) : Bool :=
  isPyWordChar c || cw c == 124 || cw c == 45

/-- Line boundaries recognised by Python `str.splitlines`: LF, VT, FF, CR (10-13),
FS, GS, RS (28-30), NEL (0x85), LINE SEPARATOR and PARAGRAPH SEPARATOR. -/
def isLineBreak (c : Char) : Bool :=
  (10 ≤ cw c && cw c ≤ 13) || (28 ≤ cw c && cw c ≤ 30) || cw c == 0x85 ||
  cw c == 0x2028 || cw c == 0x2029

/-- Python `str.lstrip()`. -/
def lstripPy (l : Str) : Str := l.dropWhile isPyWs

/-- Python `str.rstrip()`. -/
def rstripPy (l : Str) : Str := (l.reverse.dropWhile isPyWs).reverse

/-- Python `str.strip()`. -/
def stripPy (l : Str) : Str := rstripPy (lstripPy l)

/-- Prepend a character to the first chunk of a chunk list (helper for `splitlinesKeep`). -/
def consHead (c : Char) : List Str → List Str
  | [] => [[c]]
  | ln :: lns => (c :: ln) :: lns

/-- Python `str.splitlines(keepends=True)`: split at every line boundary, keeping the
terminators; a CR immediately followed by LF counts as a single boundary. -/
def splitlinesKeep : Str → List Str
  | [] => []
  | '\r' :: '\n' :: rest => ['\r', '\n'] :: splitlinesKeep rest
  | c :: rest =>
    if isLineBreak c then [c] :: splitlinesKeep rest
    else consHead c (splitlinesKeep rest)

/-- `re.match` of `format_directive(language)` = `\s*MARKER\s*\|` (`process.py`), for a
language whose comment marker is the literal string `marker`.  Returns the input after the
matched prefix when the pattern matches at position 0. -/
def matchDirPre (marker : Str) (l : Str) : Option Str :=
  let r1 := l.dropWhile isPyWs
  if r1.take marker.length = marker then
    match (r1.drop marker.length).dropWhile isPyWs with
    | '|' :: r4 => some r4
    | _ => none
  else none

/-- `cell_magic.match(line)` where `cell_magic = re.compile(r"^\s*%%\w+")` (`process.py`). -/
def isCellMagic (l : Str) : Bool :=
  match l.dropWhile isPyWs with
  | '%' :: '%' :: c :: _ => isPyWordChar c
  | _ => false

/-- Characters that are special in a Python regular expression outside a character class.
`format_directive` and `quarto_regex` interpolate the comment marker into the pattern
UNESCAPED, so only a marker containing none of these behaves as a literal string.  For
stata's `"*"` marker the interpolated pattern `\s**\s*\|\s*[\w|-]+\s*:` is invalid and
`re.compile` itself raises `re.error: multiple repeat`, so every function built on it
raises on every input. -/
def isRegexMetaChar (c : Char) : Bool :=
  c == '\\' || c == '.' || c == '^' || c == '$' || c == '*' || c == '+' || c == '?' ||
  c == '\x7b' || c == '\x7d' || c == '[' || c == ']' || c == '(' || c == ')' || c == '|'

/-- `quarto_regex(language).match(content)` where
`quarto_regex = \s*MARKER\s*\|\s*[\w|-]+\s*:` (`process.py`).  On success returns
`(group(0), rest)` with `group(0) ++ rest` the input.  The marker is treated as a literal
string, which is faithful exactly for markers without regex metacharacters (`#`, `//`,
`%`, `--`, `!`, `⍝` from the language table); for stata's `"*"` the Python pattern does
not even compile (see `isRegexMetaChar`), an error path this scanner does not represent,
and the list-valued markers of `c`/`css`/`sas` interpolate as a character class, which is
also outside this model. -/
def matchQuarto (marker : Str) (l : Str) : Option (Str × Str) :=
  let w1 := l.takeWhile isPyWs
  let r1 := l.dropWhile isPyWs
  if r1.take marker.length = marker then
    let r2 := r1.drop marker.length
    let w2 := r2.takeWhile isPyWs
    match r2.dropWhile isPyWs with
    | [] => none
    | b :: r4 =>
      if b = '|' then
        let w3 := r4.takeWhile isPyWs
        let r5 := r4.dropWhile isPyWs
        let nm := r5.takeWhile isDirNameChar
        let r6 := r5.dropWhile isDirNameChar
        let w4 := r6.takeWhile isPyWs
        match r6.dropWhile isPyWs with
        | [] => none
        | d :: r8 =>
          if d = ':' then
            if nm.isEmpty then none
            else some (w1 ++ marker ++ w2 ++ '|' :: (w3 ++ nm ++ w4 ++ [':']), r8)
          else none
      else none
  else none

/-- `re.search` of the quarto pattern: does it match at some position of `l`? -/
def hasQuartoMatch (marker : Str) : Str → Bool
  | [] => false
  | c :: rest => (matchQuarto marker (c :: rest)).isSome || hasQuartoMatch marker rest

/-- Fuelled worker for `subQuarto`: scan left to right, removing every (leftmost,
non-overlapping) match of the quarto pattern, as `re.sub` with an empty replacement does. -/
def subQuartoF (marker : Str) : Nat → Str → Str
  | 0, l => l
  | fuel + 1, l =>
    match matchQuarto marker l with
    | some gr => subQuartoF marker fuel gr.2
    | none =>
      match l with
      | [] => []
      | c :: rest => c :: subQuartoF marker fuel rest

/-- `quarto_regex(language).sub("", content)` (`process.py`).  Every match consumes at
least one character, so `content.length` steps of fuel always suffice. -/
def subQuarto (marker : Str) (l : Str) : Str := subQuartoF marker l.length l

/-- `fix_quarto_directives(content, language)` (`process.py`):
`f"{match.group(0)} {regex.sub('', content).lstrip()}"` when the quarto pattern matches at
position 0, otherwise the content unchanged. -/
def fixQuartoDirectives (marker : Str) (content : Str) : Str :=
  match matchQuarto marker content with
  | some gr => gr.1 ++ ' ' :: lstripPy (subQuarto marker content)
  | none => content

/-- Does the stripped content end with a colon (`content.strip().endswith(":")`)? -/
def lastIsColon (l : Str) : Bool :=
  match l.getLast? with
  | some c => c == ':'
  | none => false

/-- Python `content.replace(":", ": ")`. -/
def expandColons (l : Str) : Str :=
  (l.map (fun c => if c == ':' then [':', ' '] else [c])).flatten

/-- Worker for `pyWords` carrying the (reversed) current word. -/
def pyWordsAux : Str → Str → List Str
  | [], acc => if acc.isEmpty then [] else [acc.reverse]
  | c :: rest, acc =>
    if isPyWs c then
      if acc.isEmpty then pyWordsAux rest [] else acc.reverse :: pyWordsAux rest []
    else pyWordsAux rest (c :: acc)

/-- Python `str.split()` with no argument: split on whitespace runs, no empty tokens. -/
def pyWords (l : Str) : List Str := pyWordsAux l []

/-- `get_directive(content, language)` (`process.py`): canonicalise the `\s*MARKER\s*\|`
prefix to `MARKER|`, drop every colon if the stripped content ends with one, otherwise pad
every colon with a space, strip, drop two characters, strip and split; an empty token list
yields `None`, otherwise `(name, args)`. -/
def getDirective (marker : Str) (content : Str) : Option (Str × List Str) :=
  let c1 :=
    match matchDirPre marker content with
    | some rest => marker ++ '|' :: rest
    | none => content
  let c2 := if lastIsColon (stripPy c1) then c1.filter (fun c => !(c == ':')) else c1
  let c3 := if c2.any (fun c => c == ':') then expandColons c2 else c2
  match pyWords (stripPy ((stripPy c3).drop 2)) with
  | [] => none
  | d :: args => some (d, args)

/-- The scan predicate of `first_code_line` (`process.py`): a line is the first code line
when it is non-blank, does not match the directive prefix pattern and is not a cell
magic. -/
def isCodeLine (marker : Str) (line : Str) : Bool :=
  !(stripPy line).isEmpty && !(matchDirPre marker line).isSome && !isCellMagic line

/-- `first_code_line(code_list, language=...)` (`process.py`): index of the first code
line, `None` if there is none. -/
def firstCodeLine (marker : Str) (lines : List Str) : Option Nat :=
  lines.findIdx? (isCodeLine marker)

/-- `partition_cell(cell, language)` (`process.py`).  An empty (falsy) source yields
`([], [])`.  Otherwise the source is split into lines keeping the ends and the pair
`lines[:first_code], lines[first_code:]` is returned.  When `first_code_line` returns
`None`, the Python slices `lines[:None]` and `lines[None:]` BOTH evaluate to the whole
list, so both components are the full line list. -/
def partitionCell (marker : Str) (source : Str) : List Str × List Str :=
  if source.isEmpty then ([], [])
  else
    let lines := splitlinesKeep source
    match firstCodeLine marker lines with
    | some i => (lines.take i, lines.drop i)
    | none => (lines, lines)

/-- Insertion of one key-value pair into a Python dict under construction: a duplicate key
overwrites the stored value in place (insertion order of the first occurrence is kept). -/
def dictInsert (m : List (Str × List Str)) (kv : Str × List Str) : List (Str × List Str) :=
  if m.any (fun p => p.1 == kv.1) then m.map (fun p => if p.1 == kv.1 then kv else p)
  else m ++ [kv]

/-- Worker for `pyDict`. -/
def pyDictAux (acc : List (Str × List Str)) :
    List (Option (Str × List Str)) → Except Unit (List (Str × List Str))
  | [] => .ok acc
  | none :: _ => .error ()
  | some kv :: rest => pyDictAux (dictInsert acc kv) rest

/-- Python `dict(iterable)` over key-value pairs, where an element that is `None` makes
the construction raise `TypeError` (modelled as `.error ()`). -/
def pyDict (l : List (Option (Str × List Str))) : Except Unit (List (Str × List Str)) :=
  pyDictAux [] l

/-- `extract_directives(cell, remove_directives, language)` (`process.py`), acting on the
cell's source string.  The partition is computed; the `if directives is None` branch of
the Python code is unreachable because `partition_cell` always returns a pair of lists.
With `remove_directives` the source is rewritten to the normalised form of those
directive-block lines that match the quarto pattern or are cell magics, followed by the
code lines.  The result mapping is built by `dict(get_directive(...) for ...)`, which
raises `TypeError` (modelled as `.error ()`) whenever some line parses to `None`.
In Python the source rewrite happens before the `dict` call, so on `TypeError` the cell
source has already been mutated; the model only reports the error. -/
def extractDirectives (marker : Str) (removeDirectives : Bool) (source : Str) :
    Except Unit (List (Str × List Str) × Str) :=
  let pc := partitionCell marker source
  let newSource :=
    if removeDirectives then
      (((pc.1.filter (fun d => (matchQuarto marker d).isSome || isCellMagic d)).map
          (fixQuartoDirectives marker)) ++ pc.2).flatten
    else source
  match pyDict (pc.1.map (getDirective marker)) with
  | .ok m => .ok (m, newSource)
  | .error e => .error e


/-- A notebook cell (`NotebookCell` of `notebook.py`, as consumed by the engine).
`source` distinguishes the three states the Python code distinguishes:
`none` = the attribute is absent (`hasattr(cell, "source")` is false),
`some none` = the attribute holds `None`,
`some (some s)` = the attribute holds the string `s`. -/
structure Cell where
  cell_type : String
  source : Option (Option Str)
  index_ : Nat
deriving DecidableEq

/-- `extract_directives` applied to a whole cell.  Accessing `cell.source` on a cell
without the attribute raises `AttributeError` (`.error ()`).  A `None` source is falsy, so
`partition_cell` returns `([], [])`; with `remove_directives` the rewrite then assigns
`cell["source"] = ""` and the mapping is empty.  Otherwise the source string is processed
by `extractDirectives` and written back.  The cell's kind is never consulted. -/
def extractCellDirectives (marker : Str) (removeDirectives : Bool) (c : Cell) :
    Except Unit (List (Str × List Str) × Cell) :=
  match c.source with
  | none => .error ()
  | some none =>
    .ok ([], if removeDirectives then { c with source := some (some []) } else c)
  | some (some src) =>
    (extractDirectives marker removeDirectives src).map
      (fun p => (p.1, { c with source := some (some p.2) }))

/-- A comment marker of the language table: a single line-comment token, or an
open/close pair for block comments. -/
inductive CommentMark where
  | single : String → CommentMark
  | pair : String → String → CommentMark
deriving DecidableEq

/-- The key-value pairs passed to `defaultdict(...)` in `utils.py`, in source order.
All arguments are keyword arguments, so they all become dictionary entries. -/
def langsPairs : List (String × CommentMark) :=
  [("r", .single "#"), ("python", .single "#"), ("julia", .single "#"),
   ("scala", .single "//"), ("matlab", .single "%"), ("csharp", .single "//"),
   ("fsharp", .single "//"), ("c", .pair "/*" "*/"), ("css", .pair "/*" "*/"),
   ("sas", .pair "*" ";"), ("powershell", .single "#"), ("bash", .single "#"),
   ("sql", .single "--"), ("mysql", .single "--"), ("psql", .single "--"),
   ("lua", .single "--"), ("cpp", .single "//"), ("cc", .single "//"),
   ("stan", .single "#"), ("octave", .single "#"), ("fortran", .single "!"),
   ("fortran95", .single "!"), ("awk", .single "#"), ("gawk", .single "#"),
   ("stata", .single "*"), ("java", .single "//"), ("groovy", .single "//"),
   ("sed", .single "#"), ("perl", .single "#"), ("ruby", .single "#"),
   ("tikz", .single "%"), ("js", .single "//"), ("d3", .single "//"),
   ("node", .single "//"), ("sass", .single "//"), ("coffee", .single "#"),
   ("go", .single "//"), ("asy", .single "//"), ("haskell", .single "--"),
   ("dot", .single "//"), ("apl", .single "⍝")]

/-- `langs[language]` (`utils.py`).  `langs = defaultdict(r="#", python="#", ...)` passes
no positional `default_factory` argument, so the factory is `None` and a lookup of an
unregistered key raises `KeyError`, modelled as `none`. -/
def langsLookup (language : String) : Option CommentMark :=
  langsPairs.lookup language

/-- The reindexing loop of `NotebookProcessor.process_notebook` (`processor.py`):
`for i, cell in enumerate(self.notebook.cells): cell.index_ = i`, started at `i`. -/
def reindexFrom (i : Nat) : List Cell → List Cell
  | [] => []
  | c :: cs => { c with index_ := i } :: reindexFrom (i + 1) cs

/-- `getattr(cell, "source", None) is not None`. -/
def hasLiveSource (c : Cell) : Bool :=
  match c.source with
  | some (some _) => true
  | _ => false

/-- The prune-and-reindex step run after each processor's pass in
`NotebookProcessor.process_notebook` (`processor.py`, lines 235-239): keep the cells that
are not `None` and whose `source` attribute exists and is not `None`, then renumber
`index_` from 0.  The cell list may contain `None` entries left behind by a processor,
hence `List (Option Cell)`. -/
def pruneReindex (cells : List (Option Cell)) : List Cell :=
  reindexFrom 0 ((cells.filterMap id).filter hasLiveSource)

/-- Forget the `index_` field (used to compare cell lists up to reindexing). -/
def stripIdx (c : Cell) : Cell := { c with index_ := 0 }

/-- `Processor.process_cell` (`processor.py`, lines 87-97): the processor's `process`
method runs only when the cell's kind is listed in `self.cell_types`; otherwise the
method returns `None` and the cell is untouched.  A processor's `process` is modelled as
a pure map from the visited cell to (its mutated state, the returned value). -/
def processorProcessCell (cellTypes : List String) (process : Cell → Cell × Option Cell)
    (cell : Cell) : Cell × Option Cell :=
  if cell.cell_type ∈ cellTypes then process cell else (cell, none)

/-- A per-cell processor as `NotebookProcessor.process_cell` sees it: whether it is
callable, whether its `__name__` ends in an underscore (`is_directive` in `process.py`),
the in-place mutation it performs on the visited cell, and the value it returns. -/
structure PyProcessor where
  isCallable : Bool
  isUnderscoreNamed : Bool
  effect : Cell → Cell
  retval : Cell → Option Cell

/-- `NotebookProcessor.process_cell(processor, cell)` (`processor.py`, lines 200-216),
acting on the notebook's cell list with the visited cell given by its position `i`.
If the cell has no `source` attribute the call returns immediately.  Otherwise, when the
processor is callable and not underscore-named, `processor(cell)` runs: it mutates the
visited cell in place (the list keeps the same object, now mutated) and its return value
is bound to the local variable `processed_cell`; the final `cell = processed_cell`
rebinding only changes a local name, so the returned replacement never reaches the
notebook. -/
def npProcessCell (cells : List Cell) (i : Nat) (p : PyProcessor) : List Cell :=
  match cells[i]? with
  | none => cells
  | some c =>
    if c.source.isNone then cells
    else if p.isCallable && !p.isUnderscoreNamed then cells.set i (p.effect c)
    else cells

/-- The `"#"` marker shared by the default (`python`) language. -/
def hashMark : Str := ['#']

/-- The boundary-correctness example source of the specification:
`"#| process\n#|opt: 1\ndef f(): pass\n"`. -/
def srcBoundary : Str := "#| process\n#|opt: 1\ndef f(): pass\n".data

/-- The magic-transparency example source of the specification: `"%%bash\necho hi\n"`. -/
def srcMagic : Str := "%%bash\necho hi\n".data

/-- A cell source whose directive block is a single blank line: `"\nx = 1\n"`. -/
def srcBlankLead : Str := "\nx = 1\n".data

/-- A markdown-style cell source carrying a directive: `"#| process\nhello\n"`. -/
def srcDirectiveMd : Str := "#| process\nhello\n".data

/-- A single-line source on which quarto normalisation is not idempotent:
`"#|a:##|b:|d:e"`. -/
def srcNonIdem : Str := "#|a:##|b:|d:e".data

/-! ### General lemmas -/

theorem flatten_consHead (c : Char) (L : List Str) :
    (consHead c L).flatten = c :: L.flatten := by
  cases L <;> simp [consHead]

theorem flatten_splitlinesKeep (s : Str) : (splitlinesKeep s).flatten = s := by
  induction s using splitlinesKeep.induct with
  | case1 => rfl
  | case2 rest ih => simp [splitlinesKeep, ih]
  | case3 c rest hne hb ih => simp [splitlinesKeep, hne, hb, ih]
  | case4 c rest hne hb ih => simp [splitlinesKeep, hne, hb, ih, flatten_consHead]

theorem reindexFrom_map_stripIdx (i : Nat) (l : List Cell) :
    (reindexFrom i l).map stripIdx = l.map stripIdx := by
  induction l generalizing i with
  | nil => rfl
  | cons c cs ih => simp [reindexFrom, stripIdx, ih]

theorem reindexFrom_map_index (i : Nat) (l : List Cell) :
    (reindexFrom i l).map Cell.index_ = List.range' i l.length := by
  induction l generalizing i with
  | nil => rfl
  | cons c cs ih => simp [reindexFrom, List.range', ih]

theorem reindexFrom_length (i : Nat) (l : List Cell) :
    (reindexFrom i l).length = l.length := by
  induction l generalizing i with
  | nil => rfl
  | cons c cs ih => simp [reindexFrom, ih]

/-! ### Claim C1 -/

/-- Claim C1 as stated is false: for the one-line blank cell `"\n"` no boundary line
exists, and `partition_cell` returns the full line list as BOTH components
(`lines[:None]` and `lines[None:]` are each the whole list), so the concatenation has the
source twice and the code component is not empty. -/
theorem c1_partition_counterexample :
    (partitionCell hashMark ['\n']).1 ++ (partitionCell hashMark ['\n']).2 ≠
      splitlinesKeep ['\n'] ∧
    (partitionCell hashMark ['\n']).2 ≠ [] := by
  decide

/-- Claim C1, amended: whenever a boundary line exists, `partition_cell` splits the line
list at it and the concatenation of the two components is exactly the source's line list
(so flattening reconstructs the source); when no boundary line exists, both components
are the entire line list (for an empty source both are empty). -/
theorem c1_partition_amended (marker source : Str) :
    (∀ i, firstCodeLine marker (splitlinesKeep source) = some i →
        (partitionCell marker source).1 ++ (partitionCell marker source).2 =
          splitlinesKeep source ∧
        ((partitionCell marker source).1 ++ (partitionCell marker source).2).flatten =
          source) ∧
    (firstCodeLine marker (splitlinesKeep source) = none →
        (partitionCell marker source).1 = splitlinesKeep source ∧
        (partitionCell marker source).2 = splitlinesKeep source) := by
  constructor
  · intro i h
    have hs : source.isEmpty = false := by
      cases source with
      | nil => simp [splitlinesKeep, firstCodeLine] at h
      | cons a b => rfl
    have hp : partitionCell marker source =
        ((splitlinesKeep source).take i, (splitlinesKeep source).drop i) := by
      simp only [partitionCell, hs, Bool.false_eq_true, if_false, h]
    rw [hp]
    constructor
    · exact List.take_append_drop i (splitlinesKeep source)
    · rw [List.take_append_drop i (splitlinesKeep source)]
      exact flatten_splitlinesKeep source
  · intro h
    cases hsrc : source.isEmpty with
    | true =>
      have : source = [] := by
        cases source with
        | nil => rfl
        | cons a b => simp at hsrc
      subst this
      exact ⟨rfl, rfl⟩
    | false =>
      have hp : partitionCell marker source = (splitlinesKeep source, splitlinesKeep source) := by
        simp only [partitionCell, hsrc, Bool.false_eq_true, if_false, h]
      rw [hp]
      exact ⟨rfl, rfl⟩

/-- Witness for `c1_partition_amended` at concrete inputs: the source `"x\n"` has its
first code line at index 0, and the reconstruction equation holds there; the source
`"\n"` has no code line and both components are its full line list. -/
theorem c1_partition_amended_witness :
    (firstCodeLine hashMark (splitlinesKeep ['x', '\n']) = some 0 ∧
      ((partitionCell hashMark ['x', '\n']).1 ++
        (partitionCell hashMark ['x', '\n']).2).flatten = ['x', '\n']) ∧
    (firstCodeLine hashMark (splitlinesKeep ['\n']) = none ∧
      (partitionCell hashMark ['\n']).1 = splitlinesKeep ['\n']) :=
  ⟨⟨by decide, ((c1_partition_amended hashMark ['x', '\n']).1 0 (by decide)).2⟩,
   ⟨by decide, ((c1_partition_amended hashMark ['\n']).2 (by decide)).1⟩⟩

/-! ### Claim C2 -/

/-- Claim C2 is false of the code and true of its evident intent: `langs` is built as
`defaultdict(r="#", python="#", ...)` with every argument a keyword argument, so no
`default_factory` is installed and an unregistered language identifier raises `KeyError`
(here: `none`) instead of returning the default marker `"#"`.  Registered languages
resolve normally. -/
theorem c2_unknown_language_keyerror :
    langsLookup "rust" = none ∧ langsLookup "python" = some (.single "#") ∧
    langsLookup "matlab" = some (.single "%") := by
  refine ⟨rfl, rfl, rfl⟩

/-! ### Claim C3 -/

/-- Claim C3 as stated is false: on `"#| process\n#|opt: 1\ndef f(): pass\n"` the
directive mapping produced by `extract_directives` keys the second directive as `"opt:"`
(the colon survives because the line does not end with one, so only the
`replace(":", ": ")` branch runs), and the key `"opt"` is absent. -/
theorem c3_directive_name_counterexample :
    extractDirectives hashMark true srcBoundary =
      .ok ([("process".data, []), ("opt:".data, ["1".data])],
        "#|opt: 1\ndef f(): pass\n".data) ∧
    ([("process".data, []), ("opt:".data, ["1".data])] :
        List (Str × List Str)).lookup "opt".data = none :=
  ⟨rfl, by decide⟩

/-- Claim C3, amended: the partition yields exactly two directive lines and one code
line, and the directive mapping is `{"process": [], "opt:": ["1"]}` — the parsed name
keeps its trailing colon when inline arguments follow it. -/
theorem c3_boundary_amended :
    (partitionCell hashMark srcBoundary).1.length = 2 ∧
    (partitionCell hashMark srcBoundary).2.length = 1 ∧
    extractDirectives hashMark true srcBoundary =
      .ok ([("process".data, []), ("opt:".data, ["1".data])],
        "#|opt: 1\ndef f(): pass\n".data) :=
  ⟨by decide, by decide, rfl⟩

/-! ### Claim C4 -/

/-- Claim C4 as stated is false: on `"%%bash\necho hi\n"` the `%%bash` line is parsed by
`get_directive` into the pair `("bash", [])` (the magic prefix `%%` is cut off by the
`strip()[2:]` step), so the directive mapping is `{"bash": []}`, not empty. -/
theorem c4_magic_mapping_counterexample :
    extractDirectives hashMark true srcMagic = .ok ([("bash".data, [])], srcMagic) ∧
    ([("bash".data, [])] : List (Str × List Str)) ≠ [] :=
  ⟨rfl, by decide⟩

/-- Claim C4, amended: the magic line does not trigger the boundary (the boundary is the
`echo hi` line at index 1), the magic line alone forms the directive block and is
preserved verbatim in the rewritten source, and the directive mapping is `{"bash": []}`
— the magic line is parsed as a directive named after its command. -/
theorem c4_magic_amended :
    firstCodeLine hashMark (splitlinesKeep srcMagic) = some 1 ∧
    (partitionCell hashMark srcMagic).1 = ["%%bash\n".data] ∧
    extractDirectives hashMark true srcMagic = .ok ([("bash".data, [])], srcMagic) :=
  ⟨by decide, by decide, rfl⟩

/-! ### Claim C5 -/

/-- Claim C5 as stated is false: `extract_directives` never consults the cell's kind.  On
a markdown cell with source `"#| process\nhello\n"` it returns the non-empty mapping
`{"process": []}` and rewrites the source to `"hello\n"` (the colon-less directive line
is dropped), so extraction is not a no-op for non-code kinds. -/
theorem c5_markdown_noop_counterexample :
    extractCellDirectives hashMark true (Cell.mk "markdown" (some (some srcDirectiveMd)) 0) =
      .ok ([("process".data, [])], Cell.mk "markdown" (some (some "hello\n".data)) 0) ∧
    ([("process".data, [])] : List (Str × List Str)) ≠ [] ∧
    ("hello\n".data : Str) ≠ srcDirectiveMd :=
  ⟨rfl, by decide, by decide⟩

/-- Claim C5, amended: `extract_directives` treats every cell kind identically (the
repository's own tests rely on markdown cells being extracted); for any kind the
directive mapping and the rewritten source are the same as for a code cell, and with
`remove_directives=False` the source is left unchanged while the mapping is still
extracted.  The only guard is on the `source` attribute, not on the kind. -/
theorem c5_kind_blind_amended (k : String) :
    extractCellDirectives hashMark true (Cell.mk k (some (some srcDirectiveMd)) 0) =
      .ok ([("process".data, [])], Cell.mk k (some (some "hello\n".data)) 0) ∧
    extractCellDirectives hashMark false (Cell.mk k (some (some srcDirectiveMd)) 0) =
      .ok ([("process".data, [])], Cell.mk k (some (some srcDirectiveMd)) 0) :=
  ⟨rfl, rfl⟩

/-! ### Claim C6 -/

/-- Claim C6 describes the evident intent (`get_directive` deliberately returns `None`
for a line with no tokens) but the code contradicts it: `extract_directives` builds the
mapping with `dict(get_directive(d) for d in directives)` without filtering the `None`s,
and `dict()` raises `TypeError` on a `None` element.  On the cell source `"\nx = 1\n"`
the directive block is the single blank line, which parses to `None`, and extraction
raises instead of returning a mapping without an entry. -/
theorem c6_blank_directive_line_raises :
    getDirective hashMark ['\n'] = none ∧
    extractDirectives hashMark true srcBlankLead = .error () ∧
    extractDirectives hashMark false srcBlankLead = .error () :=
  ⟨rfl, rfl, rfl⟩

/-! ### Claim C7 -/

/-- Claim C7: after a processor's pass, the prune-and-reindex step keeps exactly the
non-`None` cells whose `source` attribute is present and not `None`, in their prior
relative order (equality after forgetting the recomputed `index_`), and the `index_`
fields of the result are `0, 1, 2, ...` in order; in particular, with three cells where
the middle one's source was set to `None`, exactly the outer two remain, reindexed to
`0` and `1`. -/
theorem c7_prune_reindex (cells : List (Option Cell)) :
    (pruneReindex cells).map stripIdx =
      ((cells.filterMap id).filter hasLiveSource).map stripIdx ∧
    (pruneReindex cells).map Cell.index_ = List.range (pruneReindex cells).length ∧
    pruneReindex [some (Cell.mk "code" (some (some ['a'])) 0),
        some (Cell.mk "code" (some none) 1),
        some (Cell.mk "code" (some (some ['c'])) 2)] =
      [Cell.mk "code" (some (some ['a'])) 0, Cell.mk "code" (some (some ['c'])) 1] := by
  refine ⟨reindexFrom_map_stripIdx 0 _, ?_, by decide⟩
  rw [pruneReindex, reindexFrom_map_index, reindexFrom_length, List.range_eq_range']

/-! ### Claim C8 -/

/-- Claim C8: when a cell's kind is not among the processor's declared cell types,
`Processor.process_cell` does not invoke the processor's `process` method at all — for
every possible `process` the result is the untouched cell and a `None` return. -/
theorem c8_kind_isolation (cellTypes : List String) (cell : Cell)
    (h : cell.cell_type ∉ cellTypes) (process : Cell → Cell × Option Cell) :
    processorProcessCell cellTypes process cell = (cell, none) := by
  simp [processorProcessCell, h]

/-- Witness for `c8_kind_isolation`: a processor declared for markdown cells leaves a
code cell untouched, whatever its `process` would do. -/
theorem c8_kind_isolation_witness :
    ("code" ∉ ["markdown"]) ∧
    processorProcessCell ["markdown"]
        (fun c => (Cell.mk c.cell_type none c.index_, some c))
        (Cell.mk "code" (some (some ['x'])) 0) =
      (Cell.mk "code" (some (some ['x'])) 0, none) :=
  ⟨by decide, c8_kind_isolation _ _ (by decide) _⟩

/-! ### Claim C10 -/

/-- Claim C10: `NotebookProcessor.process_cell` discards the processor's return value —
the resulting cell list does not depend on it; the list is either unchanged or equal to
the original with only the visited position replaced by its in-place mutation; and every
other position is untouched. -/
theorem c10_return_value_discarded (cells : List Cell) (i : Nat) (isC isU : Bool)
    (effect : Cell → Cell) (ret ret' : Cell → Option Cell) :
    npProcessCell cells i (PyProcessor.mk isC isU effect ret) =
      npProcessCell cells i (PyProcessor.mk isC isU effect ret') ∧
    (npProcessCell cells i (PyProcessor.mk isC isU effect ret) = cells ∨
      ∃ c, cells[i]? = some c ∧
        npProcessCell cells i (PyProcessor.mk isC isU effect ret) = cells.set i (effect c)) ∧
    (∀ j, j ≠ i →
      (npProcessCell cells i (PyProcessor.mk isC isU effect ret))[j]? = cells[j]?) := by
  refine ⟨rfl, ?_, ?_⟩
  · cases h : cells[i]? with
    | none => exact Or.inl (by simp [npProcessCell, h])
    | some c =>
      by_cases hs : c.source.isNone = true
      · exact Or.inl (by simp [npProcessCell, h, hs])
      · rw [Bool.not_eq_true] at hs
        by_cases hc : (isC && !isU) = true
        · exact Or.inr ⟨c, rfl, by simp [npProcessCell, h, hs, hc]⟩
        · rw [Bool.not_eq_true] at hc
          exact Or.inl (by simp [npProcessCell, h, hs, hc])
  · intro j hj
    cases h : cells[i]? with
    | none => simp [npProcessCell, h]
    | some c =>
      by_cases hs : c.source.isNone = true
      · simp [npProcessCell, h, hs]
      · rw [Bool.not_eq_true] at hs
        by_cases hc : (isC && !isU) = true
        · simp only [npProcessCell, h, hs, hc, Bool.false_eq_true, if_false, if_true]
          exact List.getElem?_set_ne (Ne.symm hj)
        · rw [Bool.not_eq_true] at hc
          simp [npProcessCell, h, hs, hc]

/-- Witness for `c10_return_value_discarded`: with two cells and the first visited, the
second cell's entry is unchanged even though the processor returns a replacement cell. -/
theorem c10_return_value_discarded_witness :
    ((1 : Nat) ≠ 0) ∧
    (npProcessCell [Cell.mk "code" (some (some ['a'])) 0, Cell.mk "code" (some (some ['b'])) 1]
        0 (PyProcessor.mk true false id (fun c => some c)))[1]? =
      ([Cell.mk "code" (some (some ['a'])) 0, Cell.mk "code" (some (some ['b'])) 1] :
        List Cell)[1]? :=
  ⟨by decide,
    (c10_return_value_discarded _ 0 true false id (fun c => some c) (fun _ => none)).2.2
      1 (by decide)⟩

/-! ### Lemmas on the quarto-pattern scanner (for claim C9) -/

theorem ws_not_dirName (c : Char) (h : isPyWs c = true) : isDirNameChar c = false := by
  rw [Bool.eq_false_iff]
  intro hd
  simp only [isPyWs, Bool.or_eq_true, Bool.and_eq_true, decide_eq_true_eq, beq_iff_eq] at h
  simp only [isDirNameChar, isPyWordChar, Bool.or_eq_true, Bool.and_eq_true,
    decide_eq_true_eq, beq_iff_eq] at hd
  omega

theorem takeWhile_append_stop (p : Char → Bool) (a b : Str)
    (ha : ∀ c ∈ a, p c = true) (hb : ∀ c, b.head? = some c → p c = false) :
    (a ++ b).takeWhile p = a := by
  induction a with
  | nil =>
    cases b with
    | nil => rfl
    | cons x xs => simp [List.takeWhile_cons, hb x rfl]
  | cons x xs ih =>
    simp only [List.cons_append, List.takeWhile_cons, ha x (by simp), if_true,
      List.cons.injEq, true_and]
    exact ih (fun c hc => ha c (by simp [hc]))

theorem dropWhile_append_stop (p : Char → Bool) (a b : Str)
    (ha : ∀ c ∈ a, p c = true) (hb : ∀ c, b.head? = some c → p c = false) :
    (a ++ b).dropWhile p = b := by
  induction a with
  | nil =>
    cases b with
    | nil => rfl
    | cons x xs => simp [List.dropWhile_cons, hb x rfl]
  | cons x xs ih =>
    simp only [List.cons_append, List.dropWhile_cons, ha x (by simp), if_true]
    exact ih (fun c hc => ha c (by simp [hc]))

theorem matchQuarto_nil (mk : Str) : matchQuarto mk [] = none := by
  simp only [matchQuarto, List.takeWhile_nil, List.dropWhile_nil, List.take_nil,
    List.drop_nil]
  split <;> rfl

/-- Inversion: a successful match decomposes the input into whitespace runs, the marker,
the pipe, the directive name, and the colon, with the rest following the matched group. -/
theorem matchQuarto_some_decomp (mk l g r : Str) (h : matchQuarto mk l = some (g, r)) :
    ∃ w1 w2 w3 nm w4 : Str,
      (∀ c ∈ w1, isPyWs c = true) ∧ (∀ c ∈ w2, isPyWs c = true) ∧
      (∀ c ∈ w3, isPyWs c = true) ∧ (∀ c ∈ w4, isPyWs c = true) ∧
      (∀ c ∈ nm, isDirNameChar c = true) ∧ nm ≠ [] ∧
      g = w1 ++ mk ++ w2 ++ '|' :: (w3 ++ nm ++ w4 ++ [':']) ∧
      l = g ++ r := by
  simp only [matchQuarto] at h
  split at h
  case isFalse => cases h
  case isTrue hpre =>
    split at h
    case h_1 => cases h
    case h_2 b r4 heq1 =>
      split at h
      case isFalse => cases h
      case isTrue hb =>
        subst hb
        split at h
        case h_1 => cases h
        case h_2 d r8 heq2 =>
          split at h
          case isFalse => cases h
          case isTrue hd =>
            subst hd
            split at h
            case isTrue => cases h
            case isFalse hnm =>
              injection h with h'
              injection h' with hg hr
              have e2 : l.dropWhile isPyWs =
                  mk ++ (l.dropWhile isPyWs).drop mk.length := by
                conv_lhs => rw [← List.take_append_drop mk.length (l.dropWhile isPyWs)]
                rw [hpre]
              refine ⟨l.takeWhile isPyWs,
                ((l.dropWhile isPyWs).drop mk.length).takeWhile isPyWs,
                r4.takeWhile isPyWs,
                (r4.dropWhile isPyWs).takeWhile isDirNameChar,
                ((r4.dropWhile isPyWs).dropWhile isDirNameChar).takeWhile isPyWs,
                fun c hc => List.mem_takeWhile_imp hc,
                fun c hc => List.mem_takeWhile_imp hc,
                fun c hc => List.mem_takeWhile_imp hc,
                fun c hc => List.mem_takeWhile_imp hc,
                fun c hc => List.mem_takeWhile_imp hc,
                ?_, hg.symm, ?_⟩
              · intro he
                exact hnm (by simp [he])
              · rw [← hg, ← hr]
                simp only [List.append_assoc, List.cons_append, List.singleton_append,
                  List.nil_append]
                rw [← heq2, List.takeWhile_append_dropWhile,
                  List.takeWhile_append_dropWhile, List.takeWhile_append_dropWhile,
                  ← heq1, List.takeWhile_append_dropWhile, ← e2,
                  List.takeWhile_append_dropWhile]

/-- Construction: a string shaped as whitespace, marker, whitespace, pipe, whitespace,
name, whitespace, colon, rest is matched by the quarto pattern with exactly that group,
provided the marker is nonempty and does not start with whitespace. -/
theorem matchQuarto_build (mk w1 w2 w3 nm w4 t : Str) (c0 : Char) (mrest : Str)
    (hm : mk = c0 :: mrest) (hc0 : isPyWs c0 = false)
    (hw1 : ∀ c ∈ w1, isPyWs c = true) (hw2 : ∀ c ∈ w2, isPyWs c = true)
    (hw3 : ∀ c ∈ w3, isPyWs c = true) (hw4 : ∀ c ∈ w4, isPyWs c = true)
    (hnm : ∀ c ∈ nm, isDirNameChar c = true) (hnm0 : nm ≠ []) :
    matchQuarto mk (w1 ++ (mk ++ (w2 ++ '|' :: (w3 ++ (nm ++ (w4 ++ ':' :: t)))))) =
      some (w1 ++ mk ++ w2 ++ '|' :: (w3 ++ nm ++ w4 ++ [':']), t) := by
  obtain ⟨n0, nm', rfl⟩ : ∃ a as, nm = a :: as := by
    cases nm with
    | nil => exact absurd rfl hnm0
    | cons a as => exact ⟨a, as, rfl⟩
  have hn0 : isDirNameChar n0 = true := hnm n0 (by simp)
  have hn0ws : isPyWs n0 = false := by
    cases hch : isPyWs n0 with
    | false => rfl
    | true => rw [ws_not_dirName n0 hch] at hn0; cases hn0
  have hbM : ∀ c, (mk ++ (w2 ++ '|' :: (w3 ++ (n0 :: nm' ++ (w4 ++ ':' :: t))))).head? =
      some c → isPyWs c = false := by
    intro c hc
    rw [hm] at hc
    simp only [List.cons_append, List.head?_cons, Option.some.injEq] at hc
    rw [← hc]
    exact hc0
  have hbP : ∀ c, ('|' :: (w3 ++ (n0 :: nm' ++ (w4 ++ ':' :: t))) : Str).head? =
      some c → isPyWs c = false := by
    intro c hc
    simp only [List.head?_cons, Option.some.injEq] at hc
    rw [← hc]
    decide
  have hbN : ∀ c, (n0 :: nm' ++ (w4 ++ ':' :: t) : Str).head? = some c →
      isPyWs c = false := by
    intro c hc
    simp only [List.cons_append, List.head?_cons, Option.some.injEq] at hc
    rw [← hc]
    exact hn0ws
  have hbZ : ∀ c, (w4 ++ ':' :: t : Str).head? = some c → isDirNameChar c = false := by
    cases w4 with
    | nil =>
      intro c hc
      simp only [List.nil_append, List.head?_cons, Option.some.injEq] at hc
      rw [← hc]
      decide
    | cons v vs =>
      intro c hc
      simp only [List.cons_append, List.head?_cons, Option.some.injEq] at hc
      rw [← hc]
      exact ws_not_dirName v (hw4 v (by simp))
  have hbC : ∀ c, (':' :: t : Str).head? = some c → isPyWs c = false := by
    intro c hc
    simp only [List.head?_cons, Option.some.injEq] at hc
    rw [← hc]
    decide
  simp only [matchQuarto]
  rw [takeWhile_append_stop isPyWs w1 _ hw1 hbM,
    dropWhile_append_stop isPyWs w1 _ hw1 hbM,
    if_pos (List.take_left mk _), List.drop_left,
    takeWhile_append_stop isPyWs w2 _ hw2 hbP,
    dropWhile_append_stop isPyWs w2 _ hw2 hbP]
  simp only [if_pos rfl]
  rw [takeWhile_append_stop isPyWs w3 _ hw3 hbN,
    dropWhile_append_stop isPyWs w3 _ hw3 hbN,
    takeWhile_append_stop isDirNameChar (n0 :: nm') _ hnm hbZ,
    dropWhile_append_stop isDirNameChar (n0 :: nm') _ hnm hbZ,
    takeWhile_append_stop isPyWs w4 _ hw4 hbC,
    dropWhile_append_stop isPyWs w4 _ hw4 hbC]
  simp only [if_pos rfl, List.isEmpty_cons, Bool.false_eq_true, if_false, if_true]

/-- After a successful match with group `g`, the pattern matches `g ++ t` with the same
group, for any continuation `t`. -/
theorem matchQuarto_extend (mk l g r t : Str) (c0 : Char) (mrest : Str)
    (hm : mk = c0 :: mrest) (hc0 : isPyWs c0 = false)
    (h : matchQuarto mk l = some (g, r)) :
    matchQuarto mk (g ++ t) = some (g, t) := by
  obtain ⟨w1, w2, w3, nm, w4, hw1, hw2, hw3, hw4, hnm, hnm0, hg, _⟩ :=
    matchQuarto_some_decomp mk l g r h
  subst hg
  have hb := matchQuarto_build mk w1 w2 w3 nm w4 t c0 mrest hm hc0 hw1 hw2 hw3 hw4 hnm hnm0
  rw [show (w1 ++ mk ++ w2 ++ '|' :: (w3 ++ nm ++ w4 ++ [':'])) ++ t =
      w1 ++ (mk ++ (w2 ++ '|' :: (w3 ++ (nm ++ (w4 ++ ':' :: t))))) from by
    simp [List.append_assoc, List.cons_append, List.singleton_append]]
  exact hb

theorem matchQuarto_rest_lt (mk l : Str) (gr : Str × Str)
    (h : matchQuarto mk l = some gr) : gr.2.length < l.length := by
  obtain ⟨g, r⟩ := gr
  obtain ⟨w1, w2, w3, nm, w4, _, _, _, _, _, _, hg, hl⟩ :=
    matchQuarto_some_decomp mk l g r h
  rw [hl, hg]
  simp only [List.length_append, List.length_cons]
  omega

theorem subQuartoF_nil (mk : Str) (fuel : Nat) : subQuartoF mk fuel [] = [] := by
  cases fuel with
  | zero => rfl
  | succ f => simp [subQuartoF, matchQuarto_nil]

/-- The fuelled `re.sub` scanner does not depend on the fuel once the fuel covers the
input length. -/
theorem subQuartoF_congr (mk : Str) (f1 : Nat) :
    ∀ (f2 : Nat) (l : Str), l.length ≤ f1 → l.length ≤ f2 →
      subQuartoF mk f1 l = subQuartoF mk f2 l := by
  induction f1 with
  | zero =>
    intro f2 l h1 h2
    have hl : l = [] := by
      cases l with
      | nil => rfl
      | cons c rest => simp at h1
    subst hl
    rw [subQuartoF_nil, subQuartoF_nil]
  | succ f1' ih =>
    intro f2 l h1 h2
    cases l with
    | nil => rw [subQuartoF_nil, subQuartoF_nil]
    | cons c rest =>
      cases f2 with
      | zero => simp at h2
      | succ f2' =>
        simp only [subQuartoF]
        cases hmq : matchQuarto mk (c :: rest) with
        | some gr =>
          have hlt := matchQuarto_rest_lt mk (c :: rest) gr hmq
          simp only [List.length_cons] at h1 h2 hlt
          exact ih f2' gr.2 (by omega) (by omega)
        | none =>
          simp only [List.length_cons] at h1 h2
          rw [ih f2' rest (by omega) (by omega)]

theorem subQuarto_some (mk l : Str) (gr : Str × Str) (h : matchQuarto mk l = some gr) :
    subQuarto mk l = subQuarto mk gr.2 := by
  have hlt := matchQuarto_rest_lt mk l gr h
  cases l with
  | nil => rw [matchQuarto_nil] at h; cases h
  | cons c rest =>
    show subQuartoF mk (c :: rest).length (c :: rest) = subQuarto mk gr.2
    simp only [List.length_cons, subQuartoF, h]
    exact subQuartoF_congr mk rest.length gr.2.length gr.2
      (by simp only [List.length_cons] at hlt; omega) (Nat.le_refl _)

theorem subQuarto_none_cons (mk : Str) (c : Char) (rest : Str)
    (h : matchQuarto mk (c :: rest) = none) :
    subQuarto mk (c :: rest) = c :: subQuarto mk rest := by
  show subQuartoF mk (c :: rest).length (c :: rest) = c :: subQuarto mk rest
  simp only [List.length_cons, subQuartoF, h]
  rfl

theorem subQuarto_no_match (mk l : Str) (h : hasQuartoMatch mk l = false) :
    subQuarto mk l = l := by
  induction l with
  | nil => rfl
  | cons c rest ih =>
    simp only [hasQuartoMatch, Bool.or_eq_false_iff] at h
    have hnone : matchQuarto mk (c :: rest) = none := by
      have h1 := h.1
      cases hmq : matchQuarto mk (c :: rest) with
      | none => rfl
      | some gr => rw [hmq] at h1; simp at h1
    rw [subQuarto_none_cons mk c rest hnone, ih h.2]

theorem hasQuartoMatch_of_isSome (mk l : Str) (h : (matchQuarto mk l).isSome = true) :
    hasQuartoMatch mk l = true := by
  cases l with
  | nil => rw [matchQuarto_nil] at h; cases h
  | cons c rest => simp [hasQuartoMatch, h]

theorem hasQuartoMatch_dropWhile (mk : Str) (p : Char → Bool) (l : Str)
    (h : hasQuartoMatch mk l = false) : hasQuartoMatch mk (l.dropWhile p) = false := by
  induction l with
  | nil => exact h
  | cons c rest ih =>
    simp only [hasQuartoMatch, Bool.or_eq_false_iff] at h
    rw [List.dropWhile_cons]
    split
    · exact ih h.2
    · simp [hasQuartoMatch, h.1, h.2]

/-- Prepending a whitespace character cannot create a quarto match: the pattern's leading
`\s*` absorbs it, so any match of `ws :: l` yields a match inside `l`. -/
theorem hasQuartoMatch_ws_cons (mk : Str) (c0 : Char) (mrest : Str)
    (hm : mk = c0 :: mrest) (hc0 : isPyWs c0 = false)
    (a : Char) (ha : isPyWs a = true) (l : Str)
    (h : hasQuartoMatch mk l = false) : hasQuartoMatch mk (a :: l) = false := by
  simp only [hasQuartoMatch, Bool.or_eq_false_iff]
  refine ⟨?_, h⟩
  cases hmq : matchQuarto mk (a :: l) with
  | none => rfl
  | some gr =>
    exfalso
    obtain ⟨g, r⟩ := gr
    obtain ⟨w1, w2, w3, nm, w4, hw1, hw2, hw3, hw4, hnm, hnm0, hg, hl⟩ :=
      matchQuarto_some_decomp mk (a :: l) g r hmq
    rw [hg] at hl
    cases w1 with
    | nil =>
      rw [hm] at hl
      simp only [List.nil_append, List.cons_append, List.append_assoc,
        List.singleton_append, List.cons.injEq] at hl
      rw [hl.1, hc0] at ha
      cases ha
    | cons b w1' =>
      simp only [List.cons_append, List.append_assoc, List.singleton_append,
        List.nil_append, List.cons.injEq] at hl
      obtain ⟨-, hlrest⟩ := hl
      have hb := matchQuarto_build mk w1' w2 w3 nm w4 r c0 mrest hm hc0
        (fun c hc => hw1 c (by simp [hc])) hw2 hw3 hw4 hnm hnm0
      have hmatch : hasQuartoMatch mk l = true := by
        rw [hlrest]
        exact hasQuartoMatch_of_isSome mk _ (by rw [hb]; rfl)
      rw [h] at hmatch
      cases hmatch

theorem dropWhile_dropWhile (p : Char → Bool) (l : Str) :
    (l.dropWhile p).dropWhile p = l.dropWhile p := by
  induction l with
  | nil => rfl
  | cons c rest ih =>
    by_cases hp : p c = true
    · rw [List.dropWhile_cons, if_pos hp]
      exact ih
    · rw [List.dropWhile_cons, if_neg hp, List.dropWhile_cons, if_neg hp]

/-! ### Claim C9 -/

/-- Claim C9 as stated is false: on the single line `"#|a:##|b:|d:e"` (with the default
`"#"` marker), `fix_quarto_directives` yields `"#|a: #|d:e"` — the `sub` step removes
`#|a:` and `#|b:` everywhere and the removal splices `#` and `|d:e` into a new directive
pattern — and a second application yields `"#|a: e"`, so normalisation is not
idempotent. -/
theorem c9_normalization_counterexample :
    fixQuartoDirectives hashMark (fixQuartoDirectives hashMark srcNonIdem) ≠
      fixQuartoDirectives hashMark srcNonIdem := by
  decide

/-- Claim C9, amended: for a language whose comment marker is a non-empty string that
does not begin with whitespace and contains no regex metacharacter — the markers `#`,
`//`, `%`, `--`, `!`, `⍝` of the language table, the only ones whose unescaped
interpolation into `quarto_regex` is a literal pattern — normalisation is idempotent on
every content in which the quarto pattern occurs at most once, that is, whenever the
remainder after a leading match contains no further match (in particular on every
ordinary single-directive line).  Outside this scope idempotence fails for other
reasons: with several occurrences the `sub` step can splice the removal fragments into a
fresh match (the counterexample), for stata's `*` marker `re.compile` raises
`re.error: multiple repeat` on every input, and unregistered languages raise `KeyError`
at the `langs` lookup. -/
theorem c9_normalization_amended (mk s : Str)
    (hmk : ∃ c cs, mk = c :: cs ∧ isPyWs c = false)
    (hlit : mk.all (fun c => !isRegexMetaChar c) = true)
    (hone : (matchQuarto mk s).all (fun p => !hasQuartoMatch mk p.2) = true) :
    fixQuartoDirectives mk (fixQuartoDirectives mk s) = fixQuartoDirectives mk s := by
  obtain ⟨c0, mrest, hm, hc0⟩ := hmk
  cases hms : matchQuarto mk s with
  | none => simp [fixQuartoDirectives, hms]
  | some gr =>
    obtain ⟨g, r⟩ := gr
    have hr : hasQuartoMatch mk r = false := by
      rw [hms] at hone
      simpa using hone
    have hsub : subQuarto mk s = r := by
      rw [subQuarto_some mk s (g, r) hms]
      exact subQuarto_no_match mk r hr
    have hfix : fixQuartoDirectives mk s = g ++ ' ' :: lstripPy r := by
      simp [fixQuartoDirectives, hms, hsub]
    have hR : hasQuartoMatch mk (lstripPy r) = false :=
      hasQuartoMatch_dropWhile mk isPyWs r hr
    have hwsR : hasQuartoMatch mk (' ' :: lstripPy r) = false :=
      hasQuartoMatch_ws_cons mk c0 mrest hm hc0 ' ' (by decide) _ hR
    have hext : matchQuarto mk (g ++ (' ' :: lstripPy r)) = some (g, ' ' :: lstripPy r) :=
      matchQuarto_extend mk s g r (' ' :: lstripPy r) c0 mrest hm hc0 hms
    have hsub2 : subQuarto mk (g ++ (' ' :: lstripPy r)) = ' ' :: lstripPy r := by
      rw [subQuarto_some mk _ (g, ' ' :: lstripPy r) hext]
      exact subQuarto_no_match mk _ hwsR
    rw [hfix]
    show fixQuartoDirectives mk (g ++ (' ' :: lstripPy r)) = g ++ ' ' :: lstripPy r
    simp only [fixQuartoDirectives, hext, hsub2]
    have hls : lstripPy (' ' :: lstripPy r) = lstripPy r := by
      simp only [lstripPy, List.dropWhile_cons]
      rw [if_pos (by decide)]
      exact dropWhile_dropWhile isPyWs r
    rw [hls]

/-- Witness for `c9_normalization_amended`: the `"#"` marker is a non-whitespace,
metacharacter-free literal, the line `"#| e: x"` contains a single quarto match, and
re-normalising it is stable. -/
theorem c9_normalization_amended_witness :
    (∃ c cs, hashMark = c :: cs ∧ isPyWs c = false) ∧
    hashMark.all (fun c => !isRegexMetaChar c) = true ∧
    (matchQuarto hashMark "#| e: x".data).all
        (fun p => !hasQuartoMatch hashMark p.2) = true ∧
    fixQuartoDirectives hashMark (fixQuartoDirectives hashMark "#| e: x".data) =
      fixQuartoDirectives hashMark "#| e: x".data :=
  ⟨⟨'#', [], rfl, by decide⟩, by decide, by decide,
    c9_normalization_amended hashMark "#| e: x".data ⟨'#', [], rfl, by decide⟩ (by decide)
      (by decide)⟩
